import Mathlib

/-!
Verification of the Hartree-Fock notebook for the H2 molecule in a minimal
STO-3G basis.  The Python source is embedded shallowly: NumPy 3-vectors become
`Fin 3 → ℝ`, `np.dot` becomes an explicit finite sum, the accumulation loops of
the main program become `List.foldl` over `List.range` (see `accumulate` and
`accumulate2`), and the analytic integral formulas are written with `Real.exp`,
`Real.sqrt` and real powers.  Python 2 integer division `M/2` is `Nat` division.
Functions whose Python body can divide by zero are additionally embedded as
`Option ℝ` valued (`none` models a division by zero, i.e. a NaN result).
-/

noncomputable section

open Finset

/-- Three-dimensional real vectors, the type of the NumPy position arrays. -/
abbrev Vec3 := Fin 3 → ℝ

/-- Embedding of `np.dot` on 3-vectors. -/
def dotV (x y : Vec3) : ℝ := ∑ i, x i * y i

/-- Squared distance `np.dot(diff, diff)` with `diff = x - y`, as it appears in
every integral routine of the source. -/
def dist2 (x y : Vec3) : ℝ := dotV (x - y) (x - y)

/-- The Gaussian product centre `RP = (alpha*RA + beta*RB)/(alpha + beta)`
computed in `gaussian_potential` and `gaussian_2e`. -/
def centroidP (alpha : ℝ) (RA : Vec3) (beta : ℝ) (RB : Vec3) : Vec3 :=
  fun i => (alpha * RA i + beta * RB i) / (alpha + beta)

/-- The error function used by the source through `scipy.special.erf`. -/
def erf (x : ℝ) : ℝ := 2 / Real.sqrt Real.pi * ∫ t in (0:ℝ)..x, Real.exp (-(t ^ 2))

/-- Embedding of `gaussian_overlap(alpha, RA, beta, RB)` from the source:
`(alpha+beta)**(-1.5) * exp(-alpha*beta/(alpha+beta)*dist2)`. -/
def gaussian_overlap (alpha : ℝ) (RA : Vec3) (beta : ℝ) (RB : Vec3) : ℝ :=
  (alpha + beta) ^ (-(1.5:ℝ)) * Real.exp (-(alpha * beta / (alpha + beta) * dist2 RA RB))

/-- Embedding of `basis_overlap(alpha, dA, RA, beta, dB, RB)`: the double loop
`overlap += alpha[i]**0.75*beta[j]**0.75*dA[i]*dB[j]*gaussian_overlap(...)`
followed by `return overlap*(2.0)**1.5`.  List indexing uses `getD` with
default `0`; the loops of the source only touch indices below the exponent
list lengths, where `getD` agrees with Python indexing. -/
def basis_overlap (alpha dA : List ℝ) (RA : Vec3) (beta dB : List ℝ) (RB : Vec3) : ℝ :=
  (∑ i in range alpha.length, ∑ j in range beta.length,
      (alpha.getD i 0) ^ (0.75:ℝ) * (beta.getD j 0) ^ (0.75:ℝ) *
        dA.getD i 0 * dB.getD j 0 *
        gaussian_overlap (alpha.getD i 0) RA (beta.getD j 0) RB) * (2:ℝ) ^ (1.5:ℝ)

/-- Embedding of `gaussian_kinetic(alpha, RA, beta, RB)` from the source. -/
def gaussian_kinetic (alpha : ℝ) (RA : Vec3) (beta : ℝ) (RB : Vec3) : ℝ :=
  alpha * beta / (alpha + beta) *
      (3 - 2 * alpha * beta / (alpha + beta) * dist2 RA RB) *
      (Real.pi / (alpha + beta)) ^ (1.5:ℝ) *
    Real.exp (-(alpha * beta / (alpha + beta) * dist2 RA RB))

/-- Embedding of `gaussian_potential(alpha, RA, beta, RB, RC)` from the source:
the limit branch returns `2*pi/(alpha+beta)` when both squared separations are
zero, otherwise the `erf(t)/t` form is used. -/
def gaussian_potential (alpha : ℝ) (RA : Vec3) (beta : ℝ) (RB : Vec3) (RC : Vec3) : ℝ :=
  if dist2 (centroidP alpha RA beta RB) RC = 0 ∧ dist2 RA RB = 0 then
    2 * Real.pi / (alpha + beta)
  else
    2 * Real.pi * 0.5 / (alpha + beta) * Real.sqrt Real.pi /
        Real.sqrt ((alpha + beta) * dist2 (centroidP alpha RA beta RB) RC) *
        erf (Real.sqrt ((alpha + beta) * dist2 (centroidP alpha RA beta RB) RC)) *
      Real.exp (-(alpha * beta / (alpha + beta) * dist2 RA RB))

/-- Embedding of `gaussian_potential` where every division of the Python body is
guarded: the result is `none` exactly when some division has a zero
denominator (the NaN outcomes of the floating-point code).  The divisions are
by `AplusB = alpha + beta` (in `RP` and the prefactor) and, on the non-limit
branch, by `t = sqrt(AplusB*RPRC2)`. -/
def gaussian_potentialChecked (alpha : ℝ) (RA : Vec3) (beta : ℝ) (RB : Vec3) (RC : Vec3) :
    Option ℝ :=
  if alpha + beta = 0 then none
  else if dist2 (centroidP alpha RA beta RB) RC = 0 ∧ dist2 RA RB = 0 then
    some (2 * Real.pi / (alpha + beta))
  else if Real.sqrt ((alpha + beta) * dist2 (centroidP alpha RA beta RB) RC) = 0 then none
  else
    some (2 * Real.pi * 0.5 / (alpha + beta) * Real.sqrt Real.pi /
        Real.sqrt ((alpha + beta) * dist2 (centroidP alpha RA beta RB) RC) *
        erf (Real.sqrt ((alpha + beta) * dist2 (centroidP alpha RA beta RB) RC)) *
      Real.exp (-(alpha * beta / (alpha + beta) * dist2 RA RB)))

/-- Embedding of `gaussian_2e(alpha,RA,beta,RB,gamma,RC,delta,RD)` from the
source.  The source initialises `prefactor = 2*pi**2.5/denom`, multiplies it by
`0.5*sqrt(pi)/t*erf(t)` when `RPRQ2 != 0`, and returns `prefactor*exp(...)`. -/
def gaussian_2e (alpha : ℝ) (RA : Vec3) (beta : ℝ) (RB : Vec3)
    (gamma : ℝ) (RC : Vec3) (delta : ℝ) (RD : Vec3) : ℝ :=
  (if dist2 (centroidP alpha RA beta RB) (centroidP gamma RC delta RD) ≠ 0 then
      2 * Real.pi ^ (2.5:ℝ) /
          ((alpha + beta) * (gamma + delta) * Real.sqrt (alpha + beta + (gamma + delta))) *
        (0.5 * Real.sqrt Real.pi /
            Real.sqrt ((alpha + beta) * (gamma + delta) / (alpha + beta + (gamma + delta)) *
              dist2 (centroidP alpha RA beta RB) (centroidP gamma RC delta RD)) *
          erf (Real.sqrt ((alpha + beta) * (gamma + delta) / (alpha + beta + (gamma + delta)) *
              dist2 (centroidP alpha RA beta RB) (centroidP gamma RC delta RD))))
    else
      2 * Real.pi ^ (2.5:ℝ) /
          ((alpha + beta) * (gamma + delta) * Real.sqrt (alpha + beta + (gamma + delta)))) *
    Real.exp (-(alpha * beta / (alpha + beta) * dist2 RA RB) -
        gamma * delta / (gamma + delta) * dist2 RC RD)

/-- Embedding of `gaussian_2e` with every division of the Python body guarded:
`none` models a division by zero.  The divisions are by `AplusB`, `GplusD`
(in `RP`, `RQ` and the exponent), by `denom = AplusB*GplusD*sqrt(AplusB+GplusD)`
and, on the `RPRQ2 != 0` branch, by `t`. -/
def gaussian_2eChecked (alpha : ℝ) (RA : Vec3) (beta : ℝ) (RB : Vec3)
    (gamma : ℝ) (RC : Vec3) (delta : ℝ) (RD : Vec3) : Option ℝ :=
  if alpha + beta = 0 then none
  else if gamma + delta = 0 then none
  else if (alpha + beta) * (gamma + delta) * Real.sqrt (alpha + beta + (gamma + delta)) = 0 then
    none
  else if dist2 (centroidP alpha RA beta RB) (centroidP gamma RC delta RD) ≠ 0 then
    if Real.sqrt ((alpha + beta) * (gamma + delta) / (alpha + beta + (gamma + delta)) *
        dist2 (centroidP alpha RA beta RB) (centroidP gamma RC delta RD)) = 0 then none
    else some (gaussian_2e alpha RA beta RB gamma RC delta RD)
  else some (gaussian_2e alpha RA beta RB gamma RC delta RD)

/-- Embedding of `basis_2e(alpha,dA,RA,...,delta,dD,RD)`: the quadruple primitive
loop with prefactor `(alpha[i]*beta[j]*gamma[k]*delta[l])**0.75*dA[i]*dB[j]*dC[k]*dD[l]`,
scaled by `(2.0/np.pi)**3`. -/
def basis_2e (alpha dA : List ℝ) (RA : Vec3) (beta dB : List ℝ) (RB : Vec3)
    (gamma dC : List ℝ) (RC : Vec3) (delta dD : List ℝ) (RD : Vec3) : ℝ :=
  (∑ i in range alpha.length, ∑ j in range beta.length,
    ∑ k in range gamma.length, ∑ l in range delta.length,
      (alpha.getD i 0 * beta.getD j 0 * gamma.getD k 0 * delta.getD l 0) ^ (0.75:ℝ) *
        dA.getD i 0 * dB.getD j 0 * dC.getD k 0 * dD.getD l 0 *
        gaussian_2e (alpha.getD i 0) RA (beta.getD j 0) RB
          (gamma.getD k 0) RC (delta.getD l 0) RD) * (2 / Real.pi) ^ 3

/-- Model of the accumulation loop `for k in range(n): acc += f(k)` starting
from `acc = 0.0`. -/
def accumulate (n : ℕ) (f : ℕ → ℝ) : ℝ :=
  (List.range n).foldl (fun acc k => acc + f k) 0

/-- Model of the nested accumulation loop
`for i in range(m): for j in range(n): acc += f(i,j)` starting from `acc = 0.0`. -/
def accumulate2 (m n : ℕ) (f : ℕ → ℕ → ℝ) : ℝ :=
  (List.range m).foldl
    (fun acc i => (List.range n).foldl (fun acc2 j => acc2 + f i j) acc) 0

/-- Embedding of `constructDensityMat(C)` for an `M x M` coefficient matrix.
The source fills the upper triangle (`for i in range(M): for j in range(i,M)`)
with `2 * sum over a in range(M/2) of C[i,a]*C[j,a]` and mirrors it with
`P[j,i] = P[i,j]`; entry `(i,j)` therefore equals the loop body evaluated at
`(min i j, max i j)`.  `M/2` is Python 2 integer division, i.e. `Nat` division. -/
def constructDensityMat (M : ℕ) (C : ℕ → ℕ → ℝ) : ℕ → ℕ → ℝ :=
  fun i j =>
    accumulate (M / 2) (fun a => C (min i j) a * C (max i j) a) * 2

/-- Density matrix as the claim states it: a factor 2 times a sum over the
lowest `nElec / 2` orbital columns, `nElec` the electron count of the molecule. -/
def densityMatSpec (nElec : ℕ) (C : ℕ → ℕ → ℝ) (i j : ℕ) : ℝ :=
  2 * ∑ a in range (nElec / 2), C i a * C j a

/-- Nuclear charges `Z = np.array([1,1])` of the source. -/
def Znuc : List ℝ := [1, 1]

/-- STO-3G exponents `alpha = np.array([0.168856,0.623913,3.42525])`. -/
def alphaList : List ℝ := [0.168856, 0.623913, 3.42525]

/-- STO-3G contraction coefficients `d = np.array([0.444635,0.535328,0.154329])`. -/
def dList : List ℝ := [0.444635, 0.535328, 0.154329]

/-- First nuclear position `R[0,:] = (0,0,0)`. -/
def R0v : Vec3 := fun _ => 0

/-- Second nuclear position `R[1,:] = (1.4,0,0)`. -/
def R1v : Vec3 := ![1.4, 0, 0]

/-- The row `R[n,:]` of the source position array. -/
def Rpos (n : ℕ) : Vec3 := if n = 0 then R0v else R1v

/-- The assembled overlap matrix `S[i,j] = basis_overlap(alpha,d,R[i,:],alpha,d,R[j,:])`. -/
def Smat (i j : ℕ) : ℝ :=
  basis_overlap alphaList dList (Rpos i) alphaList dList (Rpos j)

/-- The analytic coefficient matrix of the source:
`C[0,0] = 1/sqrt(2*(1+S[0,1]))`, `C[0,1] = 1/sqrt(2*(1-S[0,1]))`,
`C[1,0] = C[0,0]`, `C[1,1] = -C[0,1]`. -/
def Cmat : ℕ → ℕ → ℝ := fun i j =>
  if i = 0 ∧ j = 0 then 1 / Real.sqrt (2 * (1 + Smat 0 1))
  else if i = 0 ∧ j = 1 then 1 / Real.sqrt (2 * (1 - Smat 0 1))
  else if i = 1 ∧ j = 0 then 1 / Real.sqrt (2 * (1 + Smat 0 1))
  else if i = 1 ∧ j = 1 then -(1 / Real.sqrt (2 * (1 - Smat 0 1)))
  else 0

/-- The density matrix `P = constructDensityMat(C)` of the source main program. -/
def Pmat : ℕ → ℕ → ℝ := constructDensityMat 2 Cmat

/-- The S-weighted trace `trace(P*S) = sum over i,j of P[i,j]*S[j,i]` for the
assembled `S` and the density matrix built from the analytic `C` (M = 2). -/
def tracePS : ℝ := ∑ i in range 2, ∑ j in range 2, Pmat i j * Smat j i

/-- The assembled two-electron tensor
`twoE[i,j,k,l] = basis_2e(alpha,d,R[i,:],alpha,d,R[j,:],alpha,d,R[k,:],alpha,d,R[l,:])`. -/
def twoE4 (i j k l : ℕ) : ℝ :=
  basis_2e alphaList dList (Rpos i) alphaList dList (Rpos j)
    alphaList dList (Rpos k) alphaList dList (Rpos l)

/-- Embedding of the `G` assembly loop of the main program:
`G[i,j] = 0`, then `for k: for l: G[i,j] += P[k,l]*(twoE[i,j,l,k]-0.5*twoE[i,k,l,j])`. -/
def Gmat (M : ℕ) (P : ℕ → ℕ → ℝ) (twoE : ℕ → ℕ → ℕ → ℕ → ℝ) : ℕ → ℕ → ℝ :=
  fun i j => accumulate2 M M (fun k l => P k l * (twoE i j l k - 0.5 * twoE i k l j))

/-- Embedding of the electronic-energy loop of the main program:
`Etotal = 0`, `for i: for j: Etotal += P[i,j]*(Hcore[i,j]+F[i,j])`, `Etotal *= 0.5`. -/
def EtotalElec (M : ℕ) (P Hcore F : ℕ → ℕ → ℝ) : ℝ :=
  accumulate2 M M (fun i j => P i j * (Hcore i j + F i j)) * 0.5

/-- Embedding of the total-energy line of the main program: `Etotal += 1/R[1,0]`. -/
def EtotalTot (M : ℕ) (P Hcore F : ℕ → ℕ → ℝ) : ℝ :=
  EtotalElec M P Hcore F + 1 / R1v 0

/-- Model of the contract of `np.linalg.eig` applied to a square matrix `A`:
the output is any pair `(e, v)` such that each column `k` of `v` is a nonzero
eigenvector of `A` with eigenvalue `e k`.  NumPy documents that the returned
eigenvalues are not necessarily ordered, and the notebook applies no sort. -/
def isEigResult {n : ℕ} (A : Matrix (Fin n) (Fin n) ℝ) (e : Fin n → ℝ)
    (v : Matrix (Fin n) (Fin n) ℝ) : Prop :=
  ∀ k, A.mulVec (fun i => v i k) = (fun i => e k * v i k) ∧ ∃ i, v i k ≠ 0

/-- A concrete invertible overlap matrix (the identity) for the eigensolver claim. -/
def SexM : Matrix (Fin 2) (Fin 2) ℝ := 1

/-- Its inverse, as `np.linalg.inv` would return it. -/
def SinvExM : Matrix (Fin 2) (Fin 2) ℝ := 1

/-- A concrete Fock matrix with eigenvalues 1 and 0. -/
def FexM : Matrix (Fin 2) (Fin 2) ℝ := !![1, 0; 0, 0]

/-- A concrete eigenvalue enumeration of `Sinv * F` in descending order. -/
def eEx : Fin 2 → ℝ := ![1, 0]

/-- The corresponding eigenvector columns (the identity matrix). -/
def vEx : Matrix (Fin 2) (Fin 2) ℝ := !![1, 0; 0, 1]

/-- The 4x4 identity used as a concrete coefficient matrix for the density claim. -/
def Cid4 : ℕ → ℕ → ℝ := fun i j => if i = j then 1 else 0

/-- Second centre for the nuclear-attraction counterexample input. -/
def RBex : Vec3 := ![1, 0, 0]

/-- Nucleus position placed exactly at the Gaussian product centroid of
`R0v` and `RBex` with unit exponents. -/
def RCex : Vec3 := ![0.5, 0, 0]


section Helpers

/-- Folding an addition loop from an arbitrary initial accumulator splits off
the initial value. -/
lemma foldl_add_shift (f : ℕ → ℝ) (l : List ℕ) (init : ℝ) :
    l.foldl (fun acc k => acc + f k) init = init + l.foldl (fun acc k => acc + f k) 0 := by
  induction l generalizing init with
  | nil => simp
  | cons x xs ih =>
      simp only [List.foldl_cons]
      rw [ih (init + f x), ih (0 + f x)]
      ring

/-- The accumulation loop computes the finite sum. -/
lemma accumulate_eq_sum (n : ℕ) (f : ℕ → ℝ) :
    accumulate n f = ∑ k in range n, f k := by
  induction n with
  | zero => simp [accumulate]
  | succ m ih =>
      unfold accumulate at ih ⊢
      rw [List.range_succ, List.foldl_append]
      simp only [List.foldl_cons, List.foldl_nil]
      rw [ih, Finset.sum_range_succ]

/-- The nested accumulation loop computes the double finite sum. -/
lemma accumulate2_eq_sum (m n : ℕ) (f : ℕ → ℕ → ℝ) :
    accumulate2 m n f = ∑ i in range m, ∑ j in range n, f i j := by
  induction m with
  | zero => simp [accumulate2]
  | succ p ih =>
      unfold accumulate2 at ih ⊢
      rw [List.range_succ, List.foldl_append]
      simp only [List.foldl_cons, List.foldl_nil]
      rw [foldl_add_shift, ih, Finset.sum_range_succ]
      congr 1
      exact accumulate_eq_sum n (f p)

lemma dist2_comm (x y : Vec3) : dist2 x y = dist2 y x := by
  unfold dist2 dotV
  apply Finset.sum_congr rfl
  intro i _
  simp only [Pi.sub_apply]
  ring

lemma dist2_self (x : Vec3) : dist2 x x = 0 := by
  simp [dist2, dotV]

lemma dist2_nonneg (x y : Vec3) : 0 ≤ dist2 x y := by
  unfold dist2 dotV
  exact Finset.sum_nonneg fun i _ => mul_self_nonneg _

lemma dist2_eq_zero_iff (x y : Vec3) : dist2 x y = 0 ↔ x = y := by
  unfold dist2 dotV
  constructor
  · intro h
    funext i
    have h2 := (Finset.sum_eq_zero_iff_of_nonneg
      (fun i _ => mul_self_nonneg ((x - y) i))).1 h i (Finset.mem_univ i)
    have h3 : (x - y) i = 0 := mul_self_eq_zero.1 h2
    have h4 : x i - y i = 0 := h3
    linarith
  · intro h
    subst h
    simp

lemma centroidP_comm (a : ℝ) (x : Vec3) (b : ℝ) (y : Vec3) :
    centroidP a x b y = centroidP b y a x := by
  funext i
  unfold centroidP
  rw [add_comm (a * x i), add_comm a b]

lemma centroidP_same (a b : ℝ) (h : a + b ≠ 0) (R : Vec3) :
    centroidP a R b R = R := by
  funext i
  unfold centroidP
  field_simp
  ring

lemma gaussian_overlap_same (a b : ℝ) (R R' : Vec3) :
    gaussian_overlap a R b R = gaussian_overlap a R' b R' := by
  unfold gaussian_overlap
  rw [dist2_self, dist2_self]

lemma gaussian_overlap_comm (a : ℝ) (x : Vec3) (b : ℝ) (y : Vec3) :
    gaussian_overlap a x b y = gaussian_overlap b y a x := by
  unfold gaussian_overlap
  rw [dist2_comm y x, add_comm b a, mul_comm b a]

lemma gaussian_kinetic_comm (a : ℝ) (x : Vec3) (b : ℝ) (y : Vec3) :
    gaussian_kinetic a x b y = gaussian_kinetic b y a x := by
  unfold gaussian_kinetic
  rw [dist2_comm y x, add_comm b a, mul_comm b a]
  ring_nf

lemma gaussian_potential_comm (a : ℝ) (x : Vec3) (b : ℝ) (y : Vec3) (RC : Vec3) :
    gaussian_potential a x b y RC = gaussian_potential b y a x RC := by
  unfold gaussian_potential
  rw [centroidP_comm b y a x, dist2_comm y x, add_comm b a, mul_comm b a]

lemma gaussian_potentialChecked_comm (a : ℝ) (x : Vec3) (b : ℝ) (y : Vec3) (RC : Vec3) :
    gaussian_potentialChecked a x b y RC = gaussian_potentialChecked b y a x RC := by
  unfold gaussian_potentialChecked
  rw [centroidP_comm b y a x, dist2_comm y x, add_comm b a, mul_comm b a]

lemma gaussian_2e_comm12 (a : ℝ) (x : Vec3) (b : ℝ) (y : Vec3)
    (c : ℝ) (z : Vec3) (e : ℝ) (w : Vec3) :
    gaussian_2e a x b y c z e w = gaussian_2e b y a x c z e w := by
  unfold gaussian_2e
  rw [centroidP_comm b y a x, dist2_comm y x, add_comm b a, mul_comm b a]

lemma gaussian_2e_comm34 (a : ℝ) (x : Vec3) (b : ℝ) (y : Vec3)
    (c : ℝ) (z : Vec3) (e : ℝ) (w : Vec3) :
    gaussian_2e a x b y c z e w = gaussian_2e a x b y e w c z := by
  unfold gaussian_2e
  rw [centroidP_comm e w c z, dist2_comm w z, add_comm e c, mul_comm e c]

lemma gaussian_2e_braket (a : ℝ) (x : Vec3) (b : ℝ) (y : Vec3)
    (c : ℝ) (z : Vec3) (e : ℝ) (w : Vec3) :
    gaussian_2e a x b y c z e w = gaussian_2e c z e w a x b y := by
  unfold gaussian_2e
  rw [dist2_comm (centroidP c z e w) (centroidP a x b y),
    add_comm (c + e) (a + b), mul_comm (c + e) (a + b),
    show (-(c * e / (c + e) * dist2 z w) - a * b / (a + b) * dist2 x y)
        = (-(a * b / (a + b) * dist2 x y) - c * e / (c + e) * dist2 z w) from by ring]

lemma basis_overlap_comm (alpha dA : List ℝ) (RA : Vec3) (beta dB : List ℝ) (RB : Vec3) :
    basis_overlap alpha dA RA beta dB RB = basis_overlap beta dB RB alpha dA RA := by
  unfold basis_overlap
  congr 1
  rw [Finset.sum_comm]
  refine Finset.sum_congr rfl fun j _ => Finset.sum_congr rfl fun i _ => ?_
  rw [gaussian_overlap_comm (alpha.getD i 0) RA (beta.getD j 0) RB]
  ring

lemma basis_overlap_same (alpha dA beta dB : List ℝ) (R R' : Vec3) :
    basis_overlap alpha dA R beta dB R = basis_overlap alpha dA R' beta dB R' := by
  unfold basis_overlap
  congr 1
  refine Finset.sum_congr rfl fun i _ => Finset.sum_congr rfl fun j _ => ?_
  rw [gaussian_overlap_same (alpha.getD i 0) (beta.getD j 0) R R']

lemma sum_comm4 (s t u v : Finset ℕ) (f : ℕ → ℕ → ℕ → ℕ → ℝ) :
    (∑ i in s, ∑ j in t, ∑ k in u, ∑ l in v, f i j k l)
      = ∑ k in u, ∑ l in v, ∑ i in s, ∑ j in t, f i j k l :=
  calc (∑ i in s, ∑ j in t, ∑ k in u, ∑ l in v, f i j k l)
      = ∑ i in s, ∑ k in u, ∑ j in t, ∑ l in v, f i j k l :=
        Finset.sum_congr rfl fun i _ => Finset.sum_comm
    _ = ∑ k in u, ∑ i in s, ∑ j in t, ∑ l in v, f i j k l := Finset.sum_comm
    _ = ∑ k in u, ∑ i in s, ∑ l in v, ∑ j in t, f i j k l :=
        Finset.sum_congr rfl fun k _ => Finset.sum_congr rfl fun i _ => Finset.sum_comm
    _ = ∑ k in u, ∑ l in v, ∑ i in s, ∑ j in t, f i j k l :=
        Finset.sum_congr rfl fun k _ => Finset.sum_comm

lemma basis_2e_comm12 (alpha dA : List ℝ) (RA : Vec3) (beta dB : List ℝ) (RB : Vec3)
    (gamma dC : List ℝ) (RC : Vec3) (delta dD : List ℝ) (RD : Vec3) :
    basis_2e alpha dA RA beta dB RB gamma dC RC delta dD RD
      = basis_2e beta dB RB alpha dA RA gamma dC RC delta dD RD := by
  unfold basis_2e
  congr 1
  rw [Finset.sum_comm]
  refine Finset.sum_congr rfl fun j _ => Finset.sum_congr rfl fun i _ =>
    Finset.sum_congr rfl fun k _ => Finset.sum_congr rfl fun l _ => ?_
  rw [gaussian_2e_comm12 (alpha.getD i 0) RA (beta.getD j 0) RB,
    show alpha.getD i 0 * beta.getD j 0 * gamma.getD k 0 * delta.getD l 0
        = beta.getD j 0 * alpha.getD i 0 * gamma.getD k 0 * delta.getD l 0 from by ring]
  ring

lemma basis_2e_comm34 (alpha dA : List ℝ) (RA : Vec3) (beta dB : List ℝ) (RB : Vec3)
    (gamma dC : List ℝ) (RC : Vec3) (delta dD : List ℝ) (RD : Vec3) :
    basis_2e alpha dA RA beta dB RB gamma dC RC delta dD RD
      = basis_2e alpha dA RA beta dB RB delta dD RD gamma dC RC := by
  unfold basis_2e
  congr 1
  refine Finset.sum_congr rfl fun i _ => Finset.sum_congr rfl fun j _ => ?_
  rw [Finset.sum_comm]
  refine Finset.sum_congr rfl fun l _ => Finset.sum_congr rfl fun k _ => ?_
  rw [gaussian_2e_comm34 (alpha.getD i 0) RA (beta.getD j 0) RB (gamma.getD k 0) RC
      (delta.getD l 0) RD,
    show alpha.getD i 0 * beta.getD j 0 * gamma.getD k 0 * delta.getD l 0
        = alpha.getD i 0 * beta.getD j 0 * delta.getD l 0 * gamma.getD k 0 from by ring]
  ring

lemma basis_2e_braket (alpha dA : List ℝ) (RA : Vec3) (beta dB : List ℝ) (RB : Vec3)
    (gamma dC : List ℝ) (RC : Vec3) (delta dD : List ℝ) (RD : Vec3) :
    basis_2e alpha dA RA beta dB RB gamma dC RC delta dD RD
      = basis_2e gamma dC RC delta dD RD alpha dA RA beta dB RB := by
  unfold basis_2e
  congr 1
  rw [sum_comm4]
  refine Finset.sum_congr rfl fun k _ => Finset.sum_congr rfl fun l _ =>
    Finset.sum_congr rfl fun i _ => Finset.sum_congr rfl fun j _ => ?_
  rw [gaussian_2e_braket (alpha.getD i 0) RA (beta.getD j 0) RB,
    show alpha.getD i 0 * beta.getD j 0 * gamma.getD k 0 * delta.getD l 0
        = gamma.getD k 0 * delta.getD l 0 * alpha.getD i 0 * beta.getD j 0 from by ring]
  ring

lemma basis_overlap_single (a b : ℝ) (RA RB : Vec3) :
    basis_overlap [a] [1] RA [b] [1] RB
      = a ^ (0.75:ℝ) * b ^ (0.75:ℝ) * ((a + b) ^ (-(1.5:ℝ))
          * Real.exp (-(a * b / (a + b) * dist2 RA RB))) * (2:ℝ) ^ (1.5:ℝ) := by
  unfold basis_overlap gaussian_overlap
  simp [Finset.sum_range_succ]

lemma eigExample_valid : isEigResult (SinvExM * FexM) eEx vEx := by
  unfold isEigResult SinvExM FexM vEx eEx
  intro k
  rw [Matrix.one_mul]
  refine ⟨?_, k, ?_⟩
  · funext i
    fin_cases k <;> fin_cases i <;>
      simp [Matrix.mulVec, Matrix.dotProduct, Fin.sum_univ_two]
  · fin_cases k <;> norm_num

lemma gaussian_potentialChecked_limit (a b : ℝ) (RA RB RC : Vec3) (hab : a + b ≠ 0)
    (h1 : dist2 (centroidP a RA b RB) RC = 0) (h2 : dist2 RA RB = 0) :
    gaussian_potentialChecked a RA b RB RC = some (2 * Real.pi / (a + b)) := by
  unfold gaussian_potentialChecked
  rw [if_neg hab, if_pos ⟨h1, h2⟩]

lemma gaussian_2eChecked_limit (a b c e : ℝ) (RA RB RC RD : Vec3)
    (ha : 0 < a) (hb : 0 < b) (hc : 0 < c) (he : 0 < e)
    (h0 : dist2 (centroidP a RA b RB) (centroidP c RC e RD) = 0) :
    gaussian_2eChecked a RA b RB c RC e RD
      = some (2 * Real.pi ^ (2.5:ℝ)
          / ((a + b) * (c + e) * Real.sqrt (a + b + (c + e)))
          * Real.exp (-(a * b / (a + b) * dist2 RA RB)
              - c * e / (c + e) * dist2 RC RD)) := by
  have hab : (0:ℝ) < a + b := by linarith
  have hce : (0:ℝ) < c + e := by linarith
  have hd : (0:ℝ) < (a + b) * (c + e) * Real.sqrt (a + b + (c + e)) :=
    mul_pos (mul_pos hab hce) (Real.sqrt_pos.2 (by linarith))
  unfold gaussian_2eChecked
  rw [if_neg hab.ne', if_neg hce.ne', if_neg hd.ne', if_neg (not_not.mpr h0)]
  congr 1
  unfold gaussian_2e
  rw [if_neg (not_not.mpr h0)]

lemma gaussian_overlap_self_val (a b : ℝ) (R : Vec3) :
    gaussian_overlap a R b R = (a + b) ^ (-(1.5:ℝ)) := by
  unfold gaussian_overlap
  rw [dist2_self, mul_zero, neg_zero, Real.exp_zero, mul_one]

lemma Smat00_form :
    Smat 0 0
      = (∑ i in range 3, ∑ j in range 3,
          (alphaList.getD i 0) ^ (0.75:ℝ) * (alphaList.getD j 0) ^ (0.75:ℝ) *
            dList.getD i 0 * dList.getD j 0 *
            (alphaList.getD i 0 + alphaList.getD j 0) ^ (-(1.5:ℝ))) * (2:ℝ) ^ (1.5:ℝ) := by
  unfold Smat basis_overlap
  rw [show alphaList.length = 3 from rfl]
  congr 1
  refine Finset.sum_congr rfl fun i _ => Finset.sum_congr rfl fun j _ => ?_
  rw [gaussian_overlap_self_val]

lemma rpow_fourth (a b : ℝ) (ha : 0 < a) (hb : 0 < b) :
    (a ^ (0.75:ℝ) * b ^ (0.75:ℝ) * (a + b) ^ (-(1.5:ℝ))) ^ (4:ℕ)
      = a ^ 3 * b ^ 3 * ((a + b) ^ 6)⁻¹ := by
  have hab : (0:ℝ) < a + b := by linarith
  have e1 : (a ^ (0.75:ℝ)) ^ (4:ℕ) = a ^ 3 := by
    rw [← Real.rpow_natCast (a ^ (0.75:ℝ)) 4, ← Real.rpow_mul ha.le,
      show (0.75:ℝ) * ((4:ℕ):ℝ) = ((3:ℕ):ℝ) from by push_cast; norm_num,
      Real.rpow_natCast]
  have e2 : (b ^ (0.75:ℝ)) ^ (4:ℕ) = b ^ 3 := by
    rw [← Real.rpow_natCast (b ^ (0.75:ℝ)) 4, ← Real.rpow_mul hb.le,
      show (0.75:ℝ) * ((4:ℕ):ℝ) = ((3:ℕ):ℝ) from by push_cast; norm_num,
      Real.rpow_natCast]
  have e3 : ((a + b) ^ (-(1.5:ℝ))) ^ (4:ℕ) = ((a + b) ^ 6)⁻¹ := by
    rw [← Real.rpow_natCast ((a + b) ^ (-(1.5:ℝ))) 4, ← Real.rpow_mul hab.le,
      show (-(1.5:ℝ)) * ((4:ℕ):ℝ) = -((6:ℕ):ℝ) from by push_cast; norm_num,
      Real.rpow_neg hab.le, Real.rpow_natCast]
  rw [mul_pow, mul_pow, e1, e2, e3]

lemma rpow_term_lb (a b da db lo : ℝ) (ha : 0 < a) (hb : 0 < b)
    (hda : 0 < da) (hdb : 0 < db) (hlo : 0 < lo)
    (h : lo ^ 4 * (a + b) ^ 6 < a ^ 3 * b ^ 3) :
    da * db * lo < a ^ (0.75:ℝ) * b ^ (0.75:ℝ) * da * db * (a + b) ^ (-(1.5:ℝ)) := by
  have hab : (0:ℝ) < a + b := by linarith
  have hXpos : 0 < a ^ (0.75:ℝ) * b ^ (0.75:ℝ) * (a + b) ^ (-(1.5:ℝ)) :=
    mul_pos (mul_pos (Real.rpow_pos_of_pos ha _) (Real.rpow_pos_of_pos hb _))
      (Real.rpow_pos_of_pos hab _)
  have h6 : (0:ℝ) < (a + b) ^ 6 := by positivity
  have hlo4 : lo ^ (4:ℕ)
      < (a ^ (0.75:ℝ) * b ^ (0.75:ℝ) * (a + b) ^ (-(1.5:ℝ))) ^ (4:ℕ) := by
    rw [rpow_fourth a b ha hb, ← div_eq_mul_inv, lt_div_iff h6]
    exact h
  have hX : lo < a ^ (0.75:ℝ) * b ^ (0.75:ℝ) * (a + b) ^ (-(1.5:ℝ)) :=
    lt_of_pow_lt_pow_left 4 hXpos.le hlo4
  calc da * db * lo
      < da * db * (a ^ (0.75:ℝ) * b ^ (0.75:ℝ) * (a + b) ^ (-(1.5:ℝ))) :=
        mul_lt_mul_of_pos_left hX (mul_pos hda hdb)
    _ = a ^ (0.75:ℝ) * b ^ (0.75:ℝ) * da * db * (a + b) ^ (-(1.5:ℝ)) := by ring

lemma rpow_term_ub (a b da db hi : ℝ) (ha : 0 < a) (hb : 0 < b)
    (hda : 0 < da) (hdb : 0 < db) (hhi : 0 < hi)
    (h : a ^ 3 * b ^ 3 < hi ^ 4 * (a + b) ^ 6) :
    a ^ (0.75:ℝ) * b ^ (0.75:ℝ) * da * db * (a + b) ^ (-(1.5:ℝ)) < da * db * hi := by
  have hab : (0:ℝ) < a + b := by linarith
  have h6 : (0:ℝ) < (a + b) ^ 6 := by positivity
  have hhi4 : (a ^ (0.75:ℝ) * b ^ (0.75:ℝ) * (a + b) ^ (-(1.5:ℝ))) ^ (4:ℕ)
      < hi ^ (4:ℕ) := by
    rw [rpow_fourth a b ha hb, ← div_eq_mul_inv, div_lt_iff h6]
    exact h
  have hX : a ^ (0.75:ℝ) * b ^ (0.75:ℝ) * (a + b) ^ (-(1.5:ℝ)) < hi :=
    lt_of_pow_lt_pow_left 4 hhi.le hhi4
  calc a ^ (0.75:ℝ) * b ^ (0.75:ℝ) * da * db * (a + b) ^ (-(1.5:ℝ))
      = da * db * (a ^ (0.75:ℝ) * b ^ (0.75:ℝ) * (a + b) ^ (-(1.5:ℝ))) := by ring
    _ < da * db * hi := mul_lt_mul_of_pos_left hX (mul_pos hda hdb)

lemma two_rpow_sq : ((2:ℝ) ^ (1.5:ℝ)) ^ (2:ℕ) = 8 := by
  rw [← Real.rpow_natCast ((2:ℝ) ^ (1.5:ℝ)) 2,
    ← Real.rpow_mul (by norm_num : (0:ℝ) ≤ 2),
    show (1.5:ℝ) * ((2:ℕ):ℝ) = ((3:ℕ):ℝ) from by push_cast; norm_num,
    Real.rpow_natCast]
  norm_num

lemma two_rpow_lb : (2.8284271247:ℝ) < (2:ℝ) ^ (1.5:ℝ) := by
  have hpos : (0:ℝ) < (2:ℝ) ^ (1.5:ℝ) := Real.rpow_pos_of_pos (by norm_num) _
  apply lt_of_pow_lt_pow_left 2 hpos.le
  rw [two_rpow_sq]
  norm_num

lemma two_rpow_ub : (2:ℝ) ^ (1.5:ℝ) < 2.8284271248 := by
  apply lt_of_pow_lt_pow_left 2 (by norm_num : (0:ℝ) ≤ 2.8284271248)
  rw [two_rpow_sq]
  norm_num

set_option maxHeartbeats 3200000 in
lemma S00_bounds : 1 < Smat 0 0 ∧ Smat 0 0 < 1.000005 := by
  have h00 := rpow_term_lb 0.168856 0.168856 0.444635 0.444635 0.3535533905
    (by norm_num) (by norm_num) (by norm_num) (by norm_num) (by norm_num)
    (by norm_num)
  have u00 := rpow_term_ub 0.168856 0.168856 0.444635 0.444635 0.3535533906
    (by norm_num) (by norm_num) (by norm_num) (by norm_num) (by norm_num)
    (by norm_num)
  have h01 := rpow_term_lb 0.168856 0.623913 0.444635 0.535328 0.2619753382
    (by norm_num) (by norm_num) (by norm_num) (by norm_num) (by norm_num)
    (by norm_num)
  have u01 := rpow_term_ub 0.168856 0.623913 0.444635 0.535328 0.2619753383
    (by norm_num) (by norm_num) (by norm_num) (by norm_num) (by norm_num)
    (by norm_num)
  have h02 := rpow_term_lb 0.168856 3.42525 0.444635 0.154329 0.0973352742
    (by norm_num) (by norm_num) (by norm_num) (by norm_num) (by norm_num)
    (by norm_num)
  have u02 := rpow_term_ub 0.168856 3.42525 0.444635 0.154329 0.0973352743
    (by norm_num) (by norm_num) (by norm_num) (by norm_num) (by norm_num)
    (by norm_num)
  have h10 := rpow_term_lb 0.623913 0.168856 0.535328 0.444635 0.2619753382
    (by norm_num) (by norm_num) (by norm_num) (by norm_num) (by norm_num)
    (by norm_num)
  have u10 := rpow_term_ub 0.623913 0.168856 0.535328 0.444635 0.2619753383
    (by norm_num) (by norm_num) (by norm_num) (by norm_num) (by norm_num)
    (by norm_num)
  have h11 := rpow_term_lb 0.623913 0.623913 0.535328 0.535328 0.3535533905
    (by norm_num) (by norm_num) (by norm_num) (by norm_num) (by norm_num)
    (by norm_num)
  have u11 := rpow_term_ub 0.623913 0.623913 0.535328 0.535328 0.3535533906
    (by norm_num) (by norm_num) (by norm_num) (by norm_num) (by norm_num)
    (by norm_num)
  have h12 := rpow_term_lb 0.623913 3.42525 0.535328 0.154329 0.2169273658
    (by norm_num) (by norm_num) (by norm_num) (by norm_num) (by norm_num)
    (by norm_num)
  have u12 := rpow_term_ub 0.623913 3.42525 0.535328 0.154329 0.2169273659
    (by norm_num) (by norm_num) (by norm_num) (by norm_num) (by norm_num)
    (by norm_num)
  have h20 := rpow_term_lb 3.42525 0.168856 0.154329 0.444635 0.0973352742
    (by norm_num) (by norm_num) (by norm_num) (by norm_num) (by norm_num)
    (by norm_num)
  have u20 := rpow_term_ub 3.42525 0.168856 0.154329 0.444635 0.0973352743
    (by norm_num) (by norm_num) (by norm_num) (by norm_num) (by norm_num)
    (by norm_num)
  have h21 := rpow_term_lb 3.42525 0.623913 0.154329 0.535328 0.2169273658
    (by norm_num) (by norm_num) (by norm_num) (by norm_num) (by norm_num)
    (by norm_num)
  have u21 := rpow_term_ub 3.42525 0.623913 0.154329 0.535328 0.2169273659
    (by norm_num) (by norm_num) (by norm_num) (by norm_num) (by norm_num)
    (by norm_num)
  have h22 := rpow_term_lb 3.42525 3.42525 0.154329 0.154329 0.3535533905
    (by norm_num) (by norm_num) (by norm_num) (by norm_num) (by norm_num)
    (by norm_num)
  have u22 := rpow_term_ub 3.42525 3.42525 0.154329 0.154329 0.3535533906
    (by norm_num) (by norm_num) (by norm_num) (by norm_num) (by norm_num)
    (by norm_num)
  rw [Smat00_form]
  simp only [Finset.sum_range_succ, Finset.sum_range_zero, alphaList, dList,
    List.getD_cons_zero, List.getD_cons_succ, zero_add]
  constructor
  · refine lt_trans (by norm_num : (1:ℝ) < 0.3535538640 * 2.8284271247) ?_
    apply mul_lt_mul'' ?_ two_rpow_lb (by norm_num) (by norm_num)
    linarith [h00, h01, h02, h10, h11, h12, h20, h21, h22]
  · refine lt_of_lt_of_le ?_ (by norm_num : (0.3535538642:ℝ) * 2.8284271248 ≤ 1.000005)
    apply mul_lt_mul'' ?_ two_rpow_ub ?_
      (le_of_lt (Real.rpow_pos_of_pos (by norm_num) _))
    · linarith [u00, u01, u02, u10, u11, u12, u20, u21, u22]
    · linarith [h00, h01, h02, h10, h11, h12, h20, h21, h22]

lemma S01_pos : 0 < Smat 0 1 := by
  unfold Smat basis_overlap gaussian_overlap
  simp only [alphaList, dList, List.length_cons, List.length_nil,
    Finset.sum_range_succ, Finset.sum_range_zero, List.getD_cons_zero,
    List.getD_cons_succ, zero_add]
  positivity

lemma Smat_10 : Smat 1 0 = Smat 0 1 :=
  basis_overlap_comm alphaList dList (Rpos 1) alphaList dList (Rpos 0)

lemma Smat_11 : Smat 1 1 = Smat 0 0 :=
  basis_overlap_same alphaList dList alphaList dList (Rpos 1) (Rpos 0)

lemma Pmat_eq (i j : ℕ) (hi : i < 2) (hj : j < 2) :
    Pmat i j = 1 / (1 + Smat 0 1) := by
  have hs : 0 < Smat 0 1 := S01_pos
  have h2 : (0:ℝ) < 2 * (1 + Smat 0 1) := by linarith
  unfold Pmat constructDensityMat
  rw [accumulate_eq_sum]
  rw [show (2:ℕ) / 2 = 1 from rfl, Finset.sum_range_one]
  have hC : ∀ k, k < 2 → Cmat k 0 = 1 / Real.sqrt (2 * (1 + Smat 0 1)) := by
    intro k hk
    interval_cases k
    · simp [Cmat]
    · simp [Cmat]
  rw [hC _ (lt_of_le_of_lt (min_le_left i j) hi), hC _ (max_lt hi hj)]
  rw [div_mul_div_comm, one_mul, Real.mul_self_sqrt h2.le]
  rw [div_mul_eq_mul_div, mul_comm]
  rw [div_eq_div_iff (by linarith) (by linarith)]
  ring

lemma tracePS_eq : tracePS = 2 * (Smat 0 0 + Smat 0 1) / (1 + Smat 0 1) := by
  have hs : 0 < Smat 0 1 := S01_pos
  unfold tracePS
  simp only [Finset.sum_range_succ, Finset.sum_range_zero, zero_add]
  rw [Pmat_eq 0 0 (by norm_num) (by norm_num), Pmat_eq 0 1 (by norm_num) (by norm_num),
    Pmat_eq 1 0 (by norm_num) (by norm_num), Pmat_eq 1 1 (by norm_num) (by norm_num),
    Smat_10, Smat_11]
  have hne : (1:ℝ) + Smat 0 1 ≠ 0 := by linarith
  field_simp
  ring

end Helpers

section Claims

/-- Claim C1: the electronic energy computed on convergence is 0.5 times the sum
over all i,j of P[i,j]*(Hcore[i,j]+F[i,j]), and the total energy adds to it the
nuclear-nuclear repulsion Z_A*Z_B/|R_A-R_B| of the configured diatomic geometry
(the source adds 1/R[1,0], which equals Z[0]*Z[1]/|R[0,:]-R[1,:]| here). -/
theorem claim_C1 (M : ℕ) (P Hcore F : ℕ → ℕ → ℝ) :
    EtotalElec M P Hcore F
        = 0.5 * ∑ i in range M, ∑ j in range M, P i j * (Hcore i j + F i j)
    ∧ EtotalTot M P Hcore F
        = EtotalElec M P Hcore F
            + Znuc.getD 0 0 * Znuc.getD 1 0 / Real.sqrt (dist2 (Rpos 0) (Rpos 1)) := by
  constructor
  · unfold EtotalElec
    rw [accumulate2_eq_sum]
    ring
  · unfold EtotalTot
    congr 1
    have h0 : Rpos 0 = R0v := by simp [Rpos]
    have h1 : Rpos 1 = R1v := by simp [Rpos]
    rw [h0, h1]
    have hd : dist2 R0v R1v = 1.96 := by
      unfold dist2 dotV R0v R1v
      rw [Fin.sum_univ_three]
      simp
      norm_num
    rw [hd, show (1.96:ℝ) = 1.4 ^ 2 from by norm_num,
      Real.sqrt_sq (by norm_num : (0:ℝ) ≤ 1.4)]
    simp [Znuc, R1v]

/-- Claim C2 counterexample: `constructDensityMat` sums over the lowest M/2
columns of C (M the matrix dimension), not over N_electrons/2 = 1 occupied
orbitals (N_electrons = 2 for H2).  For the 4x4 identity coefficient matrix the
code gives P[1,1] = 2 while the claimed formula gives 0. -/
theorem claim_C2_cex :
    constructDensityMat 4 Cid4 1 1 = 2 ∧ densityMatSpec 2 Cid4 1 1 = 0 := by
  constructor
  · unfold constructDensityMat
    rw [accumulate_eq_sum]
    norm_num [Finset.sum_range_succ, Cid4]
  · unfold densityMatSpec
    norm_num [Finset.sum_range_succ, Cid4]

/-- Claim C2 (amended): for every M-by-M coefficient matrix C the density
construction returns P[i,j] = 2 * sum over the lowest floor(M/2) orbital columns
a of C[i,a]*C[j,a] — which equals N_electrons/2 = 1 column only in the H2 case
M = 2 — and the returned P is symmetric. -/
theorem claim_C2 (M : ℕ) (C : ℕ → ℕ → ℝ) (i j : ℕ) :
    constructDensityMat M C i j = 2 * ∑ a in range (M / 2), C i a * C j a
    ∧ constructDensityMat M C i j = constructDensityMat M C j i := by
  constructor
  · unfold constructDensityMat
    rw [accumulate_eq_sum]
    rcases le_total i j with h | h
    · rw [min_eq_left h, max_eq_right h]
      ring
    · rw [min_eq_right h, max_eq_left h]
      rw [show (∑ a in range (M / 2), C j a * C i a)
          = ∑ a in range (M / 2), C i a * C j a from
        Finset.sum_congr rfl fun a _ => mul_comm _ _]
      ring
  · unfold constructDensityMat
    rw [min_comm, max_comm]

/-- Claim C3: the assembled two-electron mean-field matrix satisfies
G[i,j] = sum over k,l of P[k,l]*(twoE[i,j,l,k] - 0.5*twoE[i,k,l,j]), with the
exchange factor exactly 0.5. -/
theorem claim_C3 (M : ℕ) (P : ℕ → ℕ → ℝ) (twoE : ℕ → ℕ → ℕ → ℕ → ℝ) (i j : ℕ) :
    Gmat M P twoE i j
      = ∑ k in range M, ∑ l in range M, P k l * (twoE i j l k - 0.5 * twoE i k l j) := by
  unfold Gmat
  exact accumulate2_eq_sum M M _

/-- Claim C5: the (normalised) primitive overlap integral equals
(a*b)^(3/4) * (2/(a+b))^(3/2) * exp(-a*b/(a+b)*|RA-RB|^2), is always positive
for positive exponents, and equals exactly 1 for equal exponents and centres. -/
theorem claim_C5 (a b : ℝ) (RA RB : Vec3) (ha : 0 < a) (hb : 0 < b) :
    basis_overlap [a] [1] RA [b] [1] RB
        = (a * b) ^ (0.75:ℝ) * (2 / (a + b)) ^ (1.5:ℝ)
            * Real.exp (-(a * b / (a + b) * dist2 RA RB))
    ∧ 0 < basis_overlap [a] [1] RA [b] [1] RB
    ∧ basis_overlap [a] [1] RA [a] [1] RA = 1 := by
  have hab : (0:ℝ) < a + b := by linarith
  refine ⟨?_, ?_, ?_⟩
  · rw [basis_overlap_single, Real.mul_rpow ha.le hb.le,
      Real.div_rpow (by norm_num : (0:ℝ) ≤ 2) hab.le,
      Real.rpow_neg hab.le]
    rw [div_eq_mul_inv]
    ring
  · rw [basis_overlap_single]
    have h1 := Real.rpow_pos_of_pos ha (0.75:ℝ)
    have h2 := Real.rpow_pos_of_pos hb (0.75:ℝ)
    have h3 := Real.rpow_pos_of_pos hab (-(1.5:ℝ))
    have h4 := Real.exp_pos (-(a * b / (a + b) * dist2 RA RB))
    have h5 := Real.rpow_pos_of_pos (by norm_num : (0:ℝ) < 2) (1.5:ℝ)
    positivity
  · rw [basis_overlap_single, dist2_self]
    rw [show -(a * a / (a + a) * 0) = (0:ℝ) from by ring, Real.exp_zero, mul_one]
    rw [show a + a = 2 * a from by ring,
      Real.mul_rpow (by norm_num : (0:ℝ) ≤ 2) ha.le]
    have e1 : a ^ (0.75:ℝ) * a ^ (0.75:ℝ) * a ^ (-(1.5:ℝ)) = 1 := by
      rw [← Real.rpow_add ha, ← Real.rpow_add ha]
      norm_num
    have e2 : (2:ℝ) ^ (-(1.5:ℝ)) * (2:ℝ) ^ (1.5:ℝ) = 1 := by
      rw [← Real.rpow_add (by norm_num : (0:ℝ) < 2)]
      norm_num
    calc a ^ (0.75:ℝ) * a ^ (0.75:ℝ) * ((2:ℝ) ^ (-(1.5:ℝ)) * a ^ (-(1.5:ℝ)))
          * (2:ℝ) ^ (1.5:ℝ)
        = (a ^ (0.75:ℝ) * a ^ (0.75:ℝ) * a ^ (-(1.5:ℝ)))
            * ((2:ℝ) ^ (-(1.5:ℝ)) * (2:ℝ) ^ (1.5:ℝ)) := by ring
      _ = 1 := by rw [e1, e2, mul_one]

/-- Claim C5 witness at a = b = 1 and coincident centres. -/
theorem claim_C5_witness : basis_overlap [(1:ℝ)] [1] R0v [1] [1] R0v = 1 :=
  (claim_C5 1 1 R0v R0v (by norm_num) (by norm_num)).2.2

/-- Claim C7: each primitive integral is symmetric under exchanging (alpha,RA)
with (beta,RB), and the assembled two-electron tensor has the 8-fold symmetry
twoE[i,j,k,l] = twoE[j,i,k,l] = twoE[i,j,l,k] = twoE[k,l,i,j]. -/
theorem claim_C7 (a : ℝ) (x : Vec3) (b : ℝ) (y : Vec3) (c : ℝ) (z : Vec3)
    (e : ℝ) (w : Vec3) (RC : Vec3) (i j k l : ℕ) :
    gaussian_overlap a x b y = gaussian_overlap b y a x
    ∧ gaussian_kinetic a x b y = gaussian_kinetic b y a x
    ∧ gaussian_potential a x b y RC = gaussian_potential b y a x RC
    ∧ gaussian_2e a x b y c z e w = gaussian_2e b y a x c z e w
    ∧ twoE4 i j k l = twoE4 j i k l
    ∧ twoE4 i j k l = twoE4 i j l k
    ∧ twoE4 i j k l = twoE4 k l i j :=
  ⟨gaussian_overlap_comm a x b y, gaussian_kinetic_comm a x b y,
    gaussian_potential_comm a x b y RC, gaussian_2e_comm12 a x b y c z e w,
    basis_2e_comm12 alphaList dList (Rpos i) alphaList dList (Rpos j)
      alphaList dList (Rpos k) alphaList dList (Rpos l),
    basis_2e_comm34 alphaList dList (Rpos i) alphaList dList (Rpos j)
      alphaList dList (Rpos k) alphaList dList (Rpos l),
    basis_2e_braket alphaList dList (Rpos i) alphaList dList (Rpos j)
      alphaList dList (Rpos k) alphaList dList (Rpos l)⟩

/-- Claim C4 counterexample: the eigenvalue step is `np.linalg.eig(Sinv*F)`,
whose contract fixes no ordering and which the notebook does not sort.  For the
invertible overlap matrix S = I and the Fock matrix F = diag(1,0), the
enumeration e = (1,0) with the identity eigenvector columns is a valid solver
output whose energies are not sorted ascending. -/
theorem claim_C4_cex :
    isEigResult (SinvExM * FexM) eEx vEx
    ∧ SexM * SinvExM = 1 ∧ SinvExM * SexM = 1
    ∧ eEx 1 < eEx 0 := by
  refine ⟨eigExample_valid, ?_, ?_, ?_⟩
  · unfold SexM SinvExM
    rw [Matrix.one_mul]
  · unfold SexM SinvExM
    rw [Matrix.one_mul]
  · unfold eEx
    norm_num

/-- Claim C4 (amended): the eigenvalue solve yields eigenpairs of S^-1*F in
unspecified order — any column permutation of a valid output is an equally
valid output, so no ascending ordering of the energies is guaranteed. -/
theorem claim_C4 {n : ℕ} (A : Matrix (Fin n) (Fin n) ℝ) (e : Fin n → ℝ)
    (v : Matrix (Fin n) (Fin n) ℝ) (σ : Equiv.Perm (Fin n))
    (h : isEigResult A e v) :
    isEigResult A (fun k => e (σ k)) (fun i k => v i (σ k)) :=
  fun k => h (σ k)

/-- Claim C4 witness: permuting the concrete valid eigenpair enumeration by the
transposition of the two columns again yields a valid enumeration. -/
theorem claim_C4_witness :
    isEigResult (SinvExM * FexM) (fun k => eEx (Equiv.swap 0 1 k))
      (fun i k => vEx i (Equiv.swap 0 1 k)) :=
  claim_C4 (SinvExM * FexM) eEx vEx (Equiv.swap 0 1) eigExample_valid

/-- Claim C6: when both squared separations vanish the nuclear-attraction
primitive returns the analytic limit 2*pi/(alpha+beta); the electron-repulsion
primitive returns its prefactor (no erf factor) whenever the inter-centroid
separation vanishes; and with all centres coincident neither primitive performs
a division by zero (the checked embeddings return `some`). -/
theorem claim_C6 :
    (∀ (a b : ℝ) (RA RB RC : Vec3), a + b ≠ 0 →
        dist2 (centroidP a RA b RB) RC = 0 → dist2 RA RB = 0 →
        gaussian_potentialChecked a RA b RB RC = some (2 * Real.pi / (a + b)))
    ∧ (∀ (a b c e : ℝ) (RA RB RC RD : Vec3), 0 < a → 0 < b → 0 < c → 0 < e →
        dist2 (centroidP a RA b RB) (centroidP c RC e RD) = 0 →
        gaussian_2eChecked a RA b RB c RC e RD
          = some (2 * Real.pi ^ (2.5:ℝ)
              / ((a + b) * (c + e) * Real.sqrt (a + b + (c + e)))
              * Real.exp (-(a * b / (a + b) * dist2 RA RB)
                  - c * e / (c + e) * dist2 RC RD)))
    ∧ (∀ (a b c e : ℝ) (R : Vec3), 0 < a → 0 < b → 0 < c → 0 < e →
        (gaussian_potentialChecked a R b R R).isSome = true
        ∧ (gaussian_2eChecked a R b R c R e R).isSome = true) := by
  refine ⟨gaussian_potentialChecked_limit, gaussian_2eChecked_limit, ?_⟩
  intro a b c e R ha hb hc he
  have hab : a + b ≠ 0 := by positivity
  have hce : c + e ≠ 0 := by positivity
  constructor
  · rw [gaussian_potentialChecked_limit a b R R R hab
      (by rw [centroidP_same a b hab R, dist2_self]) (dist2_self R)]
    rfl
  · rw [gaussian_2eChecked_limit a b c e R R R R ha hb hc he
      (by rw [centroidP_same a b hab R, centroidP_same c e hce R, dist2_self])]
    rfl

/-- Claim C6 witness at unit exponents and all centres at the origin. -/
theorem claim_C6_witness :
    (gaussian_potentialChecked 1 R0v 1 R0v R0v).isSome = true
    ∧ (gaussian_2eChecked 1 R0v 1 R0v 1 R0v 1 R0v).isSome = true :=
  claim_C6.2.2 1 1 1 1 R0v (by norm_num) (by norm_num) (by norm_num) (by norm_num)

/-- Claim C9 counterexample: a zero-length contracted basis function is not
rejected; `basis_overlap` silently returns the numeric value 0 instead of
failing with an `InvalidBasisDefinition` error. -/
theorem claim_C9_cex : basis_overlap [] [] R0v [] [] R0v = 0 := by
  unfold basis_overlap
  simp

/-- Claim C9 (amended): the integral routines validate nothing — zero-length
exponent/coefficient lists silently produce the numeric value 0 from both
`basis_overlap` and `basis_2e`, and coefficient-list entries beyond the
exponent-list length are silently ignored; no construction-time
`InvalidBasisDefinition` failure exists in the code. -/
theorem claim_C9 (alpha dA extra : List ℝ) (RA : Vec3) (beta dB : List ℝ) (RB : Vec3)
    (h : dA.length = alpha.length) :
    basis_overlap [] [] RA [] [] RB = 0
    ∧ basis_2e [] [] RA [] [] RB [] [] RA [] [] RB = 0
    ∧ basis_overlap alpha (dA ++ extra) RA beta dB RB
        = basis_overlap alpha dA RA beta dB RB := by
  refine ⟨?_, ?_, ?_⟩
  · unfold basis_overlap
    simp
  · unfold basis_2e
    simp
  · unfold basis_overlap
    congr 1
    refine Finset.sum_congr rfl fun i hi => Finset.sum_congr rfl fun j _ => ?_
    rw [List.getD_append]
    rw [h]
    exact Finset.mem_range.1 hi

/-- Claim C9 witness: a surplus contraction coefficient is silently ignored. -/
theorem claim_C9_witness :
    basis_overlap [(1:ℝ)] ([1] ++ [5]) R0v [1] [1] R1v
      = basis_overlap [1] [1] R0v [1] [1] R1v :=
  (claim_C9 [1] [1] [5] R0v [1] [1] R1v rfl).2.2

/-- Claim C10: with distinct centres and the nucleus placed exactly at the
Gaussian product centroid, the nuclear-attraction primitive misses its limit
branch (which needs both separations zero) and divides by zero (`none` in the
checked embedding); the electron-repulsion primitive instead takes its limit
branch whenever the inter-centroid separation vanishes, for every choice of
positive exponents and centres. -/
theorem claim_C10 :
    gaussian_potentialChecked 1 R0v 1 RBex RCex = none
    ∧ R0v ≠ RBex
    ∧ RCex = centroidP 1 R0v 1 RBex
    ∧ (∀ (a b c e : ℝ) (RA RB RC RD : Vec3), 0 < a → 0 < b → 0 < c → 0 < e →
        dist2 (centroidP a RA b RB) (centroidP c RC e RD) = 0 →
        (gaussian_2eChecked a RA b RB c RC e RD).isSome = true) := by
  have hcent : centroidP 1 R0v 1 RBex = RCex := by
    funext i
    fin_cases i <;> norm_num [centroidP, R0v, RBex, RCex]
  have hd1 : dist2 R0v RBex = 1 := by
    unfold dist2 dotV R0v RBex
    rw [Fin.sum_univ_three]
    norm_num
  refine ⟨?_, ?_, hcent.symm, ?_⟩
  · unfold gaussian_potentialChecked
    rw [if_neg (by norm_num : ¬(1 + 1 : ℝ) = 0)]
    rw [if_neg (by rw [hd1]; intro hcontra; exact one_ne_zero hcontra.2)]
    rw [if_pos]
    rw [hcent, dist2_self, mul_zero, Real.sqrt_zero]
  · intro hcontra
    have : R0v 0 = RBex 0 := congrFun hcontra 0
    norm_num [R0v, RBex] at this
  · intro a b c e RA RB RC RD ha hb hc he h0
    rw [gaussian_2eChecked_limit a b c e RA RB RC RD ha hb hc he h0]
    rfl

/-- Claim C10 witness: the repulsion primitive takes its limit branch at unit
exponents with all centres coincident. -/
theorem claim_C10_witness :
    (gaussian_2eChecked 1 R0v 1 R0v 1 R0v 1 R0v).isSome = true :=
  claim_C10.2.2.2 1 1 1 1 R0v R0v R0v R0v (by norm_num) (by norm_num) (by norm_num)
    (by norm_num)
    (by rw [centroidP_same 1 1 (by norm_num) R0v, dist2_self])

/-- Claim C8 counterexample: for the assembled overlap matrix and the density
matrix built from the analytic coefficient matrix, the S-weighted trace
trace(P*S) is not exactly 2: the STO-3G contraction is only approximately
normalised, so S[0,0] is slightly greater than 1 and the trace slightly
exceeds 2. -/
theorem claim_C8_cex : tracePS ≠ 2 := by
  have hs : 0 < Smat 0 1 := S01_pos
  have h1 : 1 < Smat 0 0 := S00_bounds.1
  rw [tracePS_eq]
  intro h
  rw [div_eq_iff (by linarith : (1:ℝ) + Smat 0 1 ≠ 0)] at h
  nlinarith

/-- Claim C8 (amended): the S-weighted trace of the density matrix equals
2*(S[0,0]+S[0,1])/(1+S[0,1]) exactly; because the contracted basis function is
only approximately normalised (1 < S[0,0] < 1.000005), this value is strictly
between 2 and 2.00001 rather than exactly the electron count 2. -/
theorem claim_C8 :
    tracePS = 2 * (Smat 0 0 + Smat 0 1) / (1 + Smat 0 1)
    ∧ 2 < tracePS ∧ tracePS < 2.00001 := by
  have hs : 0 < Smat 0 1 := S01_pos
  have h1 : 1 < Smat 0 0 := S00_bounds.1
  have h2 : Smat 0 0 < 1.000005 := S00_bounds.2
  refine ⟨tracePS_eq, ?_, ?_⟩
  · rw [tracePS_eq, lt_div_iff (by linarith : (0:ℝ) < 1 + Smat 0 1)]
    linarith
  · rw [tracePS_eq, div_lt_iff (by linarith : (0:ℝ) < 1 + Smat 0 1)]
    linarith

end Claims

end
